import Mathlib

/-!
Verification development for the thread-pool component of the repository
(src/cpp/thread/ThreadPool.hpp, src/cpp/thread/ThreadPool.h, src/cpp/thread/ThreadPool.c).

Each of the two C++ header variants and the two C variants of the pool is
shallowly embedded.  Shared mutable pool state becomes an explicit state
record; each mutex-protected block of the source becomes one atomic step of a
labelled transition relation; the lock-free atomic increment of the running
counter in the C++ pool (which the source performs after releasing the queue
mutex) becomes its own step that does not interact with the mutex.

The task queue of the C++ pool is `std::priority_queue<Task, vector<Task>,
TaskCompare>`: an array-backed binary max-heap ordered by `TaskCompare`
(`lhs.first < rhs.first`, i.e. by priority only).  We embed the heap
algorithms (`push_heap` = sift-up of the appended element, `pop_heap` = swap
root/last, drop last, sift-down of the root) directly, using fuel-structured
recursion so that every function evaluates by kernel reduction; the fuel used
is always provably sufficient.
-/

namespace TP

/-- A queued task of the C++ pool: `Task = std::pair<int, Work>`.  The work
function is opaque to the queue; we represent it by a payload identifier. -/
abbrev Tk : Type := Int × Nat

/-- The comparator `ThreadPool::TaskCompare`: `lhs.first < rhs.first`.
`std::priority_queue` with this "less" comparator is a max-heap on priority. -/
def taskCompare (lhs rhs : Tk) : Bool := lhs.1 < rhs.1

/-- Index of the parent of heap node `i` (array-backed complete binary tree). -/
def parentIdx (i : Nat) : Nat := (i - 1) / 2

/-- Priority stored at heap slot `i` (priority `0` when out of bounds). -/
def pAt (a : Array Tk) (i : Nat) : Int :=
  if h : i < a.size then (a.get ⟨i, h⟩).1 else 0

/-- The max-heap ordering property maintained by `std::priority_queue`:
every non-root node's priority is at most its parent's priority. -/
def IsHeap (a : Array Tk) : Prop :=
  ∀ i, 0 < i → i < a.size → pAt a i ≤ pAt a (parentIdx i)

/-- Sift-up loop of `std::push_heap`, with explicit fuel (the index strictly
decreases at every iteration, so fuel `i` always suffices for start index `i`). -/
def siftUpGo : Nat → Array Tk → Nat → Array Tk
  | 0, a, _ => a
  | fuel + 1, a, i =>
    if hi : i = 0 then a
    else if h : i < a.size then
      if taskCompare
          (a.get ⟨parentIdx i, by simp only [parentIdx]; omega⟩)
          (a.get ⟨i, h⟩) then
        siftUpGo fuel
          (a.swap ⟨parentIdx i, by simp only [parentIdx]; omega⟩ ⟨i, h⟩)
          (parentIdx i)
      else a
    else a

/-- `std::push_heap` applied after `push_back`: sift the last element up. -/
def siftUp (a : Array Tk) (i : Nat) : Array Tk := siftUpGo i a i

/-- `std::priority_queue::emplace`: append and restore the heap. -/
def heapPush (a : Array Tk) (t : Tk) : Array Tk := siftUp (a.push t) a.size

/-- Sift-down loop of `std::pop_heap`, with explicit fuel (the index strictly
increases and stays below the size, so fuel `a.size` suffices from the root). -/
def siftDownGo : Nat → Array Tk → Nat → Array Tk
  | 0, a, _ => a
  | fuel + 1, a, i =>
    if h : i < a.size then
      if hl : 2 * i + 1 < a.size then
        if hr : 2 * i + 2 < a.size then
          if taskCompare (a.get ⟨2 * i + 1, hl⟩) (a.get ⟨2 * i + 2, hr⟩) then
            if taskCompare (a.get ⟨i, h⟩) (a.get ⟨2 * i + 2, hr⟩) then
              siftDownGo fuel (a.swap ⟨i, h⟩ ⟨2 * i + 2, hr⟩) (2 * i + 2)
            else a
          else
            if taskCompare (a.get ⟨i, h⟩) (a.get ⟨2 * i + 1, hl⟩) then
              siftDownGo fuel (a.swap ⟨i, h⟩ ⟨2 * i + 1, hl⟩) (2 * i + 1)
            else a
        else
          if taskCompare (a.get ⟨i, h⟩) (a.get ⟨2 * i + 1, hl⟩) then
            siftDownGo fuel (a.swap ⟨i, h⟩ ⟨2 * i + 1, hl⟩) (2 * i + 1)
          else a
      else a
    else a

/-- Sift-down from the root over the whole array. -/
def siftDown (a : Array Tk) (i : Nat) : Array Tk := siftDownGo a.size a i

/-- `std::priority_queue::pop`: `pop_heap` (swap root and last element, re-heapify
the prefix) followed by `pop_back`. -/
def heapPop (a : Array Tk) : Array Tk :=
  if h : 1 < a.size then
    siftDown ((a.swap ⟨0, by omega⟩ ⟨a.size - 1, by omega⟩).pop) 0
  else #[]

/-- Loop invariant of sift-up: every parent edge except the one out of `i`
already satisfies the heap order, and the children of `i` are bounded by the
parent of `i` (so that swapping `i` upward cannot break their edges). -/
def UpInv (a : Array Tk) (i : Nat) : Prop :=
  (∀ j, 0 < j → j < a.size → j ≠ i → pAt a j ≤ pAt a (parentIdx j)) ∧
  (0 < i → ∀ c, 0 < c → c < a.size → parentIdx c = i → pAt a c ≤ pAt a (parentIdx i))

/-- Loop invariant of sift-down: every parent edge except those into `i`
satisfies the heap order, and the children of `i` are bounded by the parent
of `i` (the value at `i` itself may be too small). -/
def DownInv (a : Array Tk) (i : Nat) : Prop :=
  (∀ j, 0 < j → j < a.size → parentIdx j ≠ i → pAt a j ≤ pAt a (parentIdx j)) ∧
  (0 < i → ∀ c, 0 < c → c < a.size → parentIdx c = i → pAt a c ≤ pAt a (parentIdx i))

/-- Queue contents reachable through the pool's queue operations: the queue
starts empty; `submit`/`enqueue` push (`taskQueue_.emplace`), workers pop
(`taskQueue_.pop`). -/
inductive QReach : Array Tk → Prop where
  | empty : QReach #[]
  | push (a : Array Tk) (t : Tk) : QReach a → QReach (heapPush a t)
  | pop (a : Array Tk) : QReach a → QReach (heapPop a)

/-- Observable behaviour class of a submitted payload: it either runs to
completion, raises an exception, or (for the self-deadlock scenario) calls
`wait()` on its own pool and so can only finish once the wait predicate holds. -/
inductive Payload where
  | normal : Payload
  | raises : Payload
  | callsWait : Payload
deriving DecidableEq, Repr

/-- State of the shared result attached to a future-returning submission of the
C++ pool (the shared state of the `std::packaged_task` / `std::future` pair).
Void submissions simply have no entry.  `brokenPromise` is the state the
standard library leaves behind when the unrun `packaged_task` is destroyed
(this is what dropping a queued task in `clearQueue` does). -/
inductive HppHandle where
  | pending : HppHandle
  | value : HppHandle
  | failed : HppHandle
  | brokenPromise : HppHandle
deriving DecidableEq, Repr

/-- Phase of one worker thread of the C++ pool (`ThreadPool::workerLoop`):
`idle` = inside the wait loop or about to re-check it; `dequeued t` = it has
popped `t` inside the locked block and released the mutex, but has not yet
executed `runningTasks_.fetch_add(1)`; `executing t` = counter incremented,
payload running; `finished t` = payload returned/threw, decrement block not
yet entered; `exited` = returned from `workerLoop`. -/
inductive WPhase where
  | idle : WPhase
  | dequeued : Tk → WPhase
  | executing : Tk → WPhase
  | finished : Tk → WPhase
  | exited : WPhase
deriving DecidableEq, Repr

/-- Shared state of the C++ pool (`ThreadPool`, header variants): the atomic
flags, the atomic running counter, the priority queue, worker phases, the
result states of future-returning submissions, whether each worker thread is
still joinable, and whether some thread currently holds `queueMutex_`. -/
structure PoolSt where
  stopFlag : Bool
  pauseFlag : Bool
  running : Nat
  taskQueue : Array Tk
  workers : List WPhase
  handles : List (Nat × HppHandle)
  joinable : List Bool
  mutex : Bool
deriving DecidableEq, Repr

/-- Predicate of `ThreadPool::wait`: `taskQueue_.empty() && runningTasks_ == 0`. -/
def waitPred (s : PoolSt) : Bool :=
  (s.taskQueue.size == 0) && (s.running == 0)

/-- Write value `v` into the association entry of key `id` (no-op when the key
has no entry, e.g. a void submission has no result cell). -/
def updAssoc {β : Type} (hs : List (Nat × β)) (id : Nat) (v : β) : List (Nat × β) :=
  hs.map (fun e => if e.1 = id then (e.1, v) else e)

/-- Look up the association entry of key `id`. -/
def lookupAssoc {β : Type} (hs : List (Nat × β)) (id : Nat) : Option β :=
  (hs.find? (fun e => e.1 == id)).map Prod.snd

/-- Result state produced by executing a payload on the primary C++ worker:
the worker wraps `work()` in try/catch, and for future-returning tasks the
`packaged_task` captures a thrown exception into the shared state. -/
def outcomeOf : Payload → HppHandle
  | .normal => .value
  | .raises => .failed
  | .callsWait => .value

/-- One atomic step of the C++ pool (primary header variant).  Each
mutex-protected block of the source is one step that needs the mutex free;
`count` is `runningTasks_.fetch_add(1, relaxed)`, which the source executes
AFTER the dequeue block has released `queueMutex_`, so that step has no mutex
requirement at all and may fire while another thread holds the mutex.
`lock`/`unlock` model any other thread holding `queueMutex_` (e.g. a
`getQueueSize()` caller). -/
inductive Step (env : Nat → Payload) : PoolSt → PoolSt → Prop where
  | lock (s : PoolSt) :
      s.mutex = false →
      Step env s { s with mutex := true }
  | unlock (s : PoolSt) :
      s.mutex = true →
      Step env s { s with mutex := false }
  | exit (s : PoolSt) (w : Nat) :
      s.mutex = false →
      s.workers[w]? = some .idle →
      s.stopFlag = true →
      s.taskQueue.size = 0 →
      Step env s { s with workers := s.workers.set w .exited }
  | dequeue (s : PoolSt) (w : Nat) (t : Tk) :
      s.mutex = false →
      s.workers[w]? = some .idle →
      s.pauseFlag = false →
      s.taskQueue[0]? = some t →
      Step env s { s with workers := s.workers.set w (.dequeued t),
                          taskQueue := heapPop s.taskQueue }
  | count (s : PoolSt) (w : Nat) (t : Tk) :
      s.workers[w]? = some (.dequeued t) →
      Step env s { s with workers := s.workers.set w (.executing t),
                          running := s.running + 1 }
  | exec (s : PoolSt) (w : Nat) (t : Tk) :
      s.workers[w]? = some (.executing t) →
      (env t.2 = .callsWait → waitPred s = true) →
      Step env s { s with workers := s.workers.set w (.finished t),
                          handles := updAssoc s.handles t.2 (outcomeOf (env t.2)) }
  | done (s : PoolSt) (w : Nat) (t : Tk) :
      s.mutex = false →
      s.workers[w]? = some (.finished t) →
      0 < s.running →
      Step env s { s with workers := s.workers.set w .idle,
                          running := s.running - 1 }

/-- Reachability by pool-internal steps. -/
def Reaches (env : Nat → Payload) (s q : PoolSt) : Prop :=
  Relation.ReflTransGen (Step env) s q

/-- A `wait()` call issued in state `s` can never return: the wait predicate
is false in every state the pool can autonomously reach from `s`. -/
def BlocksForever (env : Nat → Payload) (s : PoolSt) : Prop :=
  ∀ q, Reaches env s q → waitPred q = false

/-- Errors of the C++ pool's submission path: `queueTask` throws
`std::runtime_error("Cannot enqueue task: ThreadPool is shut down.")` when the
stop flag is set. -/
inductive PoolErr where
  | poolStopped : PoolErr
deriving DecidableEq, Repr

/-- Result of a submission: the pool state afterwards, the synchronous error
if any, and whether `queueCV_.notify_one()` was issued. -/
structure EnqResult where
  st : PoolSt
  err : Option PoolErr
  notifiedOne : Bool
deriving DecidableEq, Repr

/-- `ThreadPool::DEFAULT_PRIORITY = 0`. -/
def DEFAULT_PRIORITY : Int := 0

/-- `ThreadPool::queueTask(priority, work)` of the primary header: under the
mutex, throw if `stopFlag_` is set, otherwise `taskQueue_.emplace(priority,
work)`; after unlocking, `notify_one` unless paused. -/
def queueTask (s : PoolSt) (priority : Int) (id : Nat) : EnqResult :=
  if s.stopFlag then
    { st := s, err := some .poolStopped, notifiedOne := false }
  else
    { st := { s with taskQueue := heapPush s.taskQueue (priority, id) },
      err := none,
      notifiedOne := !s.pauseFlag }

/-- The void-returning `enqueue(priority, f, args...)`: binds the arguments
and calls `queueTask`. -/
def enqueueVoidP (s : PoolSt) (priority : Int) (id : Nat) : EnqResult :=
  queueTask s priority id

/-- The void-returning `enqueue(f, args...)`: delegates with `DEFAULT_PRIORITY`. -/
def enqueueVoid (s : PoolSt) (id : Nat) : EnqResult :=
  enqueueVoidP s DEFAULT_PRIORITY id

/-- The future-returning `enqueue(priority, f, args...)`: creates a
`packaged_task` and its future (a pending result entry), wraps it, and calls
`queueTask`; on a throw the entry is never shared with the pool. -/
def enqueueFutP (s : PoolSt) (priority : Int) (id : Nat) : EnqResult :=
  let r := queueTask s priority id
  match r.err with
  | some _ => r
  | none => { r with st := { r.st with handles := r.st.handles ++ [(id, .pending)] } }

/-- The future-returning `enqueue(f, args...)`: delegates with `DEFAULT_PRIORITY`. -/
def enqueueFut (s : PoolSt) (id : Nat) : EnqResult :=
  enqueueFutP s DEFAULT_PRIORITY id

/-- `enqueue(work, priority)` of the LEGACY header variant (the second
document in ThreadPool.hpp): it performs NO stop-flag check at all; it always
emplaces and notifies one worker unless paused. -/
def legacyEnqueueP (s : PoolSt) (id : Nat) (priority : Int) : PoolSt × Bool :=
  ({ s with taskQueue := heapPush s.taskQueue (priority, id) }, !s.pauseFlag)

/-- `enqueue(work)` of the legacy header variant: delegates with `DEFAULT_PRIORITY`. -/
def legacyEnqueue (s : PoolSt) (id : Nat) : PoolSt × Bool :=
  legacyEnqueueP s id DEFAULT_PRIORITY

/-- Payload ids currently sitting in the queue. -/
def queuedIds (a : Array Tk) : List Nat :=
  a.toList.map Prod.snd

/-- `ThreadPool::clearQueue()`: under the mutex, swap the queue with an empty
one (destroying the dropped `packaged_task`s, which leaves each dropped
future-entry with a `broken_promise` error), and `notify_all` on `waitCV_`
iff no task is running.  Returns the new state and whether it notified. -/
def hppClearQueue (s : PoolSt) : PoolSt × Bool :=
  ({ s with taskQueue := #[],
            handles := (queuedIds s.taskQueue).foldl
              (fun hs id => updAssoc hs id .brokenPromise) s.handles },
   s.running == 0)

/-- Result of `ThreadPool::shutdown()`: the state afterwards, how many worker
threads were joined by this call, and the unconditional `notify_all` on both
condition variables. -/
structure ShutdownResult where
  st : PoolSt
  joined : Nat
  notifiedAllWorkers : Bool
  notifiedAllWaiters : Bool
deriving DecidableEq, Repr

/-- `ThreadPool::shutdown()`: set `stopFlag_`, clear `pauseFlag_` (under the
mutex), `notify_all` both CVs, then `for (auto and t : threads_) if
(t.joinable()) t.join()`; joined threads are no longer joinable. -/
def hppShutdown (s : PoolSt) : ShutdownResult :=
  { st := { s with stopFlag := true,
                   pauseFlag := false,
                   joinable := s.joinable.map (fun _ => false) },
    joined := (s.joinable.filter (fun b => b)).length,
    notifiedAllWorkers := true,
    notifiedAllWaiters := true }

/-- The indices of the threads `shutdown()` will call `join()` on: every
still-joinable thread, with no comparison against the calling thread's
identity. -/
def joinTargets (joinable : List Bool) : List Nat :=
  (List.range joinable.length).filter (fun i => joinable.getD i false)

/-- Execution of one payload by the PRIMARY C++ worker loop: `work()` inside
try/catch, so the worker survives and, for a future task, the
`packaged_task` has captured the exception into the shared state. -/
inductive ExecOutcome where
  | completed : HppHandle → ExecOutcome
  | processCrash : ExecOutcome
deriving DecidableEq, Repr

/-- Primary worker body (`try { work(); } catch (...) { log }`). -/
def primaryExecute (p : Payload) : ExecOutcome :=
  .completed (outcomeOf p)

/-- Execution of one payload by the LEGACY C++ worker loop (second document in
ThreadPool.hpp, lines with `runningTasks_.fetch_add(...); work();`): there is
no try/catch, so a throwing payload propagates out of `workerLoop`, which
calls `std::terminate` and brings the whole process down. -/
def legacyExecute (p : Payload) : ExecOutcome :=
  match p with
  | .raises => .processCrash
  | other => .completed (outcomeOf other)

/-- State of one `TaskResult_t` of the C pool: `pending` (`ready == false`),
`ready v` (`result_value == v, ready == true`), or `destroyed`
(`taskresult_destroy` was called: mutex and condition variable destroyed, the
memory freed). -/
inductive CHandleSt where
  | pending : CHandleSt
  | ready : Int → CHandleSt
  | destroyed : CHandleSt
deriving DecidableEq, Repr

/-- Phase of one worker thread of the C pool (`worker_loop`): the C worker
increments `running_tasks` inside the same locked block that dequeues, so
there is no dequeued-but-uncounted phase; `published id` means the task
function returned and its result was stored into the task's `TaskResult_t`. -/
inductive CPhase where
  | idle : CPhase
  | executing : Nat → CPhase
  | published : Nat → CPhase
  | exited : CPhase
deriving DecidableEq, Repr

/-- Shared state of the C pool (`ThreadPool_t`). -/
structure CSt where
  stop_flag : Bool
  pause_flag : Bool
  running_tasks : Nat
  task_queue : List Nat
  queue_size : Nat
  handles : List (Nat × CHandleSt)
  workers : List CPhase
  thread_count : Nat
  mutex : Bool
deriving DecidableEq, Repr

/-- `taskresult_get` returns only once `result->ready` is true; on a pending
cell it waits on `result_cv`, and on a destroyed cell the mutex and condition
variable it would use have been destroyed and freed, so it can never return
normally. -/
def cGetCanReturn : CHandleSt → Bool
  | .ready _ => true
  | _ => false

/-- Result of `threadpool_enqueue`: the pool state afterwards, the returned
`TaskResult_t*` (`none` = NULL), and whether `cnd_signal(queue_cv)` happened. -/
structure CEnqResult where
  st : CSt
  result : Option Nat
  signaled : Bool
deriving DecidableEq, Repr

/-- `threadpool_enqueue(pool, function, arg)`: allocate task + result; under
the mutex, if `stop_flag` free them and return NULL; otherwise append the
task at the tail of the FIFO list, increment `queue_size`, and signal one
worker unless paused. -/
def threadpool_enqueue (p : CSt) (id : Nat) : CEnqResult :=
  if p.stop_flag then
    { st := p, result := none, signaled := false }
  else
    { st := { p with task_queue := p.task_queue ++ [id],
                     queue_size := p.queue_size + 1,
                     handles := p.handles ++ [(id, .pending)] },
      result := some id,
      signaled := !p.pause_flag }

/-- Predicate under which `threadpool_wait` stops waiting:
`!(queue_size > 0 || running_tasks > 0)`. -/
def cWaitPred (p : CSt) : Bool :=
  (p.queue_size == 0) && (p.running_tasks == 0)

/-- `threadpool_clear_queue` of the FIRST C variant (ThreadPool.c, first
document): walk the queued tasks, call `taskresult_destroy` on each task's
result (destroying its mutex/cv and freeing it — NOT resolving it), free the
task nodes, reset head/tail and `queue_size`, and broadcast `wait_cv` iff no
task is running. -/
def threadpool_clear_queue (p : CSt) : CSt × Bool :=
  ({ p with handles := p.task_queue.foldl (fun hs id => updAssoc hs id .destroyed) p.handles,
            task_queue := [],
            queue_size := 0 },
   p.running_tasks == 0)

/-- `threadpool_clear_queue` of the SECOND C variant: instead of destroying
each queued task's result it stores `result_value = 0, ready = true` and
signals it — indistinguishable from a task that ran and returned 0. -/
def threadpool_clear_queue_v2 (p : CSt) : CSt × Bool :=
  ({ p with handles := p.task_queue.foldl (fun hs id => updAssoc hs id (.ready 0)) p.handles,
            task_queue := [],
            queue_size := 0 },
   p.running_tasks == 0)

/-- The flag updates `threadpool_shutdown` performs under the mutex before
waking and joining everybody: set `stop_flag`, clear `pause_flag`. -/
def threadpool_shutdown_pre (p : CSt) : CSt :=
  { p with stop_flag := true, pause_flag := false }

/-- A `ThreadPool_t*` as seen by the caller of the C API: either still live,
or already freed by `threadpool_shutdown`. -/
inductive CPoolRef where
  | live : CSt → CPoolRef
  | freed : CPoolRef
deriving DecidableEq, Repr

/-- Undefined behaviour observed by the C model. -/
inductive CFault where
  | useAfterFree : CFault
deriving DecidableEq, Repr

/-- `threadpool_shutdown(pool)`: on a live pool it sets the flags, broadcasts
both condition variables, joins each of the `thread_count` worker threads
exactly once, clears the queue, destroys the synchronisation primitives and
FREES the pool, returning how many threads were joined.  Calling it again on
the already freed pointer dereferences freed memory. -/
def threadpool_shutdown_ref : CPoolRef → Except CFault (CPoolRef × Nat)
  | .live p => .ok (.freed, p.thread_count)
  | .freed => .error .useAfterFree

/-- One atomic step of the C pool (first C variant's `worker_loop`).  Every
block that changes `running_tasks` runs between `mtx_lock(queue_mutex)` and
`mtx_unlock(queue_mutex)`, which is why those constructors require the mutex
to be free; publishing a result touches only the result's own mutex. -/
inductive CStep : CSt → CSt → Prop where
  | lock (p : CSt) :
      p.mutex = false →
      CStep p { p with mutex := true }
  | unlock (p : CSt) :
      p.mutex = true →
      CStep p { p with mutex := false }
  | exit (p : CSt) (w : Nat) :
      p.mutex = false →
      p.workers[w]? = some .idle →
      p.stop_flag = true →
      p.task_queue = [] →
      CStep p { p with workers := p.workers.set w .exited }
  | dequeue (p : CSt) (w : Nat) (id : Nat) (rest : List Nat) :
      p.mutex = false →
      p.workers[w]? = some .idle →
      p.pause_flag = false →
      p.task_queue = id :: rest →
      CStep p { p with task_queue := rest,
                       queue_size := p.queue_size - 1,
                       running_tasks := p.running_tasks + 1,
                       workers := p.workers.set w (.executing id) }
  | publish (p : CSt) (w : Nat) (id : Nat) (v : Int) :
      p.workers[w]? = some (.executing id) →
      CStep p { p with workers := p.workers.set w (.published id),
                       handles := updAssoc p.handles id (.ready v) }
  | done (p : CSt) (w : Nat) (id : Nat) :
      p.mutex = false →
      p.workers[w]? = some (.published id) →
      0 < p.running_tasks →
      CStep p { p with workers := p.workers.set w .idle,
                       running_tasks := p.running_tasks - 1 }

/-- A worker phase that neither holds nor runs a task. -/
def phaseQuiescent : WPhase → Bool
  | .idle => true
  | .exited => true
  | _ => false

/-- A worker phase that is quiescent or is executing a payload that called
`wait()` on this very pool. -/
def phaseSelfWait (env : Nat → Payload) : WPhase → Bool
  | .idle => true
  | .exited => true
  | .executing t => env t.2 == .callsWait
  | _ => false

/-- No worker of the C++ pool holds or runs a task (each is blocked in the
wait loop or has exited). -/
def workersQuiescent (s : PoolSt) : Bool :=
  s.workers.all phaseQuiescent

/-- Every worker is quiescent except that some may be executing payloads that
call `wait()` on this very pool (the self-join scenario). -/
def workersSelfWaitOnly (env : Nat → Payload) (s : PoolSt) : Bool :=
  s.workers.all (phaseSelfWait env)

/-- The configuration of C5: the pool is paused while the queue is non-empty,
nothing is running any more and every worker sits in the wait loop.  From
here the pool cannot make a single autonomous step. -/
def PausedStuck (s : PoolSt) : Prop :=
  s.pauseFlag = true ∧ 0 < s.taskQueue.size ∧ s.running = 0 ∧
    workersQuiescent s = true

/-- The configuration of C6: a worker is executing a payload that called
`wait()` on its own pool; its own execution is the one counted in
`runningTasks_`, so the wait predicate can never become true. -/
def SelfWaitCfg (env : Nat → Payload) (s : PoolSt) : Prop :=
  s.stopFlag = false ∧ s.taskQueue.size = 0 ∧ s.running = 1 ∧
    workersSelfWaitOnly env s = true

/-- Environment in which every payload runs normally. -/
def env0 : Nat → Payload := fun _ => .normal

/-- Environment in which payload 9 calls `wait()` on its own pool. -/
def env9 : Nat → Payload := fun n => if n = 9 then .callsWait else .normal

/-- Environment in which payload 7 throws an exception. -/
def env7 : Nat → Payload := fun n => if n = 7 then .raises else .normal

/-- Drain loop: repeatedly take the top task and pop, recording the payload
ids in dequeue order (what a single worker would execute, with no new
submissions). -/
def drainGo : Nat → Array Tk → List Nat
  | 0, _ => []
  | fuel + 1, a =>
    match a[0]? with
    | some t => t.2 :: drainGo fuel (heapPop a)
    | none => []

/-- The dequeue order of the queue's current contents. -/
def drainIds (a : Array Tk) : List Nat := drainGo a.size a

/-- A demo queue holding payload 1 at priority 5 and payload 2 at priority 3. -/
def aW : Array Tk := heapPush (heapPush #[] (5, 1)) (3, 2)

/-- A freshly constructed C++ pool with one worker thread. -/
def p0 : PoolSt :=
  { stopFlag := false, pauseFlag := false, running := 0, taskQueue := #[],
    workers := [.idle], handles := [], joinable := [true], mutex := false }

/-- `p0` after `enqueue(0, work)` of payload 100 (one task of priority 0 queued). -/
def s0 : PoolSt := (queueTask p0 0 100).st

/-- `s0` after the worker's dequeue block: the task is popped and the mutex
released, but `runningTasks_.fetch_add(1)` has not executed yet. -/
def s1 : PoolSt :=
  { s0 with workers := s0.workers.set 0 (.dequeued (0, 100)),
            taskQueue := heapPop s0.taskQueue }

/-- `s1` with `queueMutex_` held by some other thread. -/
def s1L : PoolSt := { s1 with mutex := true }

/-- `s1L` after the worker's `fetch_add(1)` — executed while another thread
holds the mutex. -/
def s1C : PoolSt :=
  { s1L with workers := s1L.workers.set 0 (.executing (0, 100)),
             running := s1L.running + 1 }

/-- A stopped C++ pool (after `shutdown()` set the stop flag). -/
def spd : PoolSt := { p0 with stopFlag := true }

/-- `p0` after submitting payload 100 and then calling `pause()` (the C5
scenario: paused with pending work, nothing running). -/
def sP : PoolSt := { s0 with pauseFlag := true }

/-- The C6 scenario: the single worker is executing payload 9, which has
called `wait()` on its own pool; the counter is 1 and the queue is empty. -/
def sW : PoolSt :=
  { stopFlag := false, pauseFlag := false, running := 1, taskQueue := #[],
    workers := [.executing (0, 9)], handles := [(9, .pending)],
    joinable := [true], mutex := false }

/-- The C9 scenario: the single worker is executing future payload 7, which
throws. -/
def s9 : PoolSt :=
  { stopFlag := false, pauseFlag := false, running := 1, taskQueue := #[],
    workers := [.executing (3, 7)], handles := [(7, .pending)],
    joinable := [true], mutex := false }

/-- A live C pool with one pending queued task (id 4), nothing running. -/
def cp7 : CSt :=
  { stop_flag := false, pause_flag := false, running_tasks := 0,
    task_queue := [4], queue_size := 1, handles := [(4, .pending)],
    workers := [.idle], thread_count := 1, mutex := false }

/-- A quiescent live C pool with one worker thread. -/
def cp8 : CSt :=
  { stop_flag := false, pause_flag := false, running_tasks := 0,
    task_queue := [], queue_size := 0, handles := [],
    workers := [.idle], thread_count := 1, mutex := false }

theorem parentIdx_lt {i : Nat} (h : 0 < i) : parentIdx i < i := by
  unfold parentIdx
  omega

theorem parentIdx_child_left (i : Nat) : parentIdx (2 * i + 1) = i := by
  unfold parentIdx
  omega

theorem parentIdx_child_right (i : Nat) : parentIdx (2 * i + 2) = i := by
  unfold parentIdx
  omega

theorem child_of_parentIdx {j i : Nat} (hj : 0 < j) (h : parentIdx j = i) :
    j = 2 * i + 1 ∨ j = 2 * i + 2 := by
  unfold parentIdx at h
  omega

theorem size_siftUpGo (fuel : Nat) : ∀ a i, (siftUpGo fuel a i).size = a.size := by
  induction fuel with
  | zero => intro a i; rfl
  | succ fuel ih =>
    intro a i
    unfold siftUpGo
    split
    · rfl
    · split
      · split
        · rw [ih, Array.size_swap]
        · rfl
      · rfl

theorem size_siftDownGo (fuel : Nat) : ∀ a i, (siftDownGo fuel a i).size = a.size := by
  induction fuel with
  | zero => intro a i; rfl
  | succ fuel ih =>
    intro a i
    unfold siftDownGo
    split
    · split
      · split
        · split
          · split
            · rw [ih, Array.size_swap]
            · rfl
          · split
            · rw [ih, Array.size_swap]
            · rfl
        · split
          · rw [ih, Array.size_swap]
          · rfl
      · rfl
    · rfl

theorem size_heapPush (a : Array Tk) (t : Tk) : (heapPush a t).size = a.size + 1 := by
  unfold heapPush siftUp
  rw [size_siftUpGo, Array.size_push]

theorem size_heapPop (a : Array Tk) : (heapPop a).size = a.size - 1 := by
  unfold heapPop
  split
  · unfold siftDown
    rw [size_siftDownGo, Array.size_pop, Array.size_swap]
  · simp only [Array.size_toArray, List.length_nil]
    omega

theorem pAt_swap (a : Array Tk) (i j : Fin a.size) (k : Nat) :
    pAt (a.swap i j) k =
      if k = i.1 then pAt a j.1 else if k = j.1 then pAt a i.1 else pAt a k := by
  by_cases hk : k < a.size
  · have hk2 : k < (a.swap i j).size := by rw [Array.size_swap]; exact hk
    have hswap := Array.getElem_swap a i j k hk2
    unfold pAt
    rw [dif_pos hk2]
    simp only [Array.get_eq_getElem]
    rw [hswap]
    by_cases h1 : k = i.1
    · rw [if_pos h1, if_pos h1, dif_pos j.2]; rfl
    · rw [if_neg h1, if_neg h1]
      by_cases h2 : k = j.1
      · rw [if_pos h2, if_pos h2, dif_pos i.2]; rfl
      · rw [if_neg h2, if_neg h2, dif_pos hk]
  · have hk2 : ¬ k < (a.swap i j).size := by rw [Array.size_swap]; exact hk
    have h1 : k ≠ i.1 := by intro h; exact hk (h ▸ i.2)
    have h2 : k ≠ j.1 := by intro h; exact hk (h ▸ j.2)
    unfold pAt
    rw [dif_neg hk2, if_neg h1, if_neg h2, dif_neg hk]

theorem pAt_push (a : Array Tk) (t : Tk) (j : Nat) :
    pAt (a.push t) j = if j = a.size then t.1 else pAt a j := by
  unfold pAt
  by_cases hlt2 : j < (a.push t).size
  · rw [dif_pos hlt2]
    simp only [Array.get_eq_getElem]
    rw [Array.getElem_push]
    by_cases hlt : j < a.size
    · have hj : ¬ j = a.size := by omega
      rw [dif_pos hlt, if_neg hj, dif_pos hlt]
    · have hj : j = a.size := by
        rw [Array.size_push] at hlt2; omega
      rw [dif_neg hlt, if_pos hj]
  · have hs : ¬ j < a.size + 1 := by rw [Array.size_push] at hlt2; exact hlt2
    have hj : ¬ j = a.size := by omega
    have hlt : ¬ j < a.size := by omega
    rw [dif_neg hlt2, if_neg hj, dif_neg hlt]

theorem pAt_pop (a : Array Tk) (j : Nat) (h : j < a.size - 1) :
    pAt a.pop j = pAt a j := by
  unfold pAt
  have h1 : j < a.pop.size := by rw [Array.size_pop]; exact h
  have h2 : j < a.size := by omega
  rw [dif_pos h1, dif_pos h2]
  simp only [Array.get_eq_getElem]
  exact congrArg Prod.fst (Array.getElem_pop a j h1)

theorem pAt_out_of_bounds (a : Array Tk) (j : Nat) (h : ¬ j < a.size) : pAt a j = 0 := by
  unfold pAt
  rw [dif_neg h]

theorem taskCompare_lt {x y : Tk} (h : taskCompare x y = true) : x.1 < y.1 := by
  unfold taskCompare at h
  exact of_decide_eq_true h

theorem taskCompare_ge {x y : Tk} (h : taskCompare x y = false) : y.1 ≤ x.1 := by
  unfold taskCompare at h
  exact le_of_not_lt (of_decide_eq_false h)

theorem pAt_get (a : Array Tk) (i : Nat) (h : i < a.size) :
    pAt a i = (a.get ⟨i, h⟩).1 := by
  unfold pAt
  rw [dif_pos h]

theorem upInv_swap (a : Array Tk) (i : Nat) (hi : i < a.size) (hi0 : i ≠ 0)
    (hp : parentIdx i < a.size) (hinv : UpInv a i)
    (hlt : pAt a (parentIdx i) < pAt a i) :
    UpInv (a.swap ⟨parentIdx i, hp⟩ ⟨i, hi⟩) (parentIdx i) := by
  have hpi : parentIdx i < i := parentIdx_lt (Nat.pos_of_ne_zero hi0)
  have pb : ∀ k, pAt (a.swap ⟨parentIdx i, hp⟩ ⟨i, hi⟩) k =
      if k = parentIdx i then pAt a i else if k = i then pAt a (parentIdx i) else pAt a k :=
    fun k => pAt_swap a ⟨parentIdx i, hp⟩ ⟨i, hi⟩ k
  have hsz : (a.swap ⟨parentIdx i, hp⟩ ⟨i, hi⟩).size = a.size := Array.size_swap a _ _
  constructor
  · intro j hj hjs hjp
    rw [hsz] at hjs
    by_cases hji : j = i
    · subst hji
      have hii : j = j := rfl
      have hpp : parentIdx j = parentIdx j := rfl
      rw [pb j, pb (parentIdx j), if_neg hjp, if_pos hii, if_pos hpp]
      exact le_of_lt hlt
    · by_cases hpj : parentIdx j = parentIdx i
      · rw [pb j, pb (parentIdx j), if_neg hjp, if_neg hji, if_pos hpj]
        calc pAt a j ≤ pAt a (parentIdx j) := hinv.1 j hj hjs hji
          _ = pAt a (parentIdx i) := by rw [hpj]
          _ ≤ pAt a i := le_of_lt hlt
      · by_cases hpj2 : parentIdx j = i
        · rw [pb j, pb (parentIdx j), if_neg hjp, if_neg hji, if_neg hpj, if_pos hpj2]
          exact hinv.2 (Nat.pos_of_ne_zero hi0) j hj hjs hpj2
        · rw [pb j, pb (parentIdx j), if_neg hjp, if_neg hji, if_neg hpj, if_neg hpj2]
          exact hinv.1 j hj hjs hji
  · intro hp0 c hc0 hc hpc
    rw [hsz] at hc
    have hppi : parentIdx (parentIdx i) < parentIdx i := parentIdx_lt hp0
    have hp1 : ¬ parentIdx (parentIdx i) = parentIdx i := by omega
    have hp2 : ¬ parentIdx (parentIdx i) = i := by omega
    have hpne : parentIdx i ≠ i := by omega
    by_cases hci : c = i
    · have hcp : ¬ c = parentIdx i := by omega
      rw [pb c, pb (parentIdx (parentIdx i)), if_neg hcp, if_pos hci, if_neg hp1, if_neg hp2]
      exact hinv.1 (parentIdx i) hp0 hp hpne
    · have hcp : ¬ c = parentIdx i := by
        intro h
        rw [h] at hpc
        omega
      rw [pb c, pb (parentIdx (parentIdx i)), if_neg hcp, if_neg hci, if_neg hp1, if_neg hp2]
      calc pAt a c ≤ pAt a (parentIdx c) := hinv.1 c hc0 hc hci
        _ = pAt a (parentIdx i) := by rw [hpc]
        _ ≤ pAt a (parentIdx (parentIdx i)) := hinv.1 (parentIdx i) hp0 hp hpne

theorem siftUpGo_isHeap (fuel : Nat) :
    ∀ a i, i < a.size → i ≤ fuel → UpInv a i → IsHeap (siftUpGo fuel a i) := by
  induction fuel with
  | zero =>
    intro a i hi hle hinv j hj hjs
    have h0 : i = 0 := by omega
    exact hinv.1 j hj hjs (by omega)
  | succ fuel ih =>
    intro a i hi hle hinv
    unfold siftUpGo
    by_cases hi0 : i = 0
    · rw [dif_pos hi0]
      intro j hj hjs
      exact hinv.1 j hj hjs (by omega)
    · rw [dif_neg hi0, dif_pos hi]
      have hpi : parentIdx i < i := parentIdx_lt (Nat.pos_of_ne_zero hi0)
      have hp : parentIdx i < a.size := Nat.lt_trans hpi hi
      split
      · next hcmp =>
        have hlt : pAt a (parentIdx i) < pAt a i := by
          rw [pAt_get a (parentIdx i) hp, pAt_get a i hi]
          exact taskCompare_lt hcmp
        exact ih _ (parentIdx i)
          (by rw [Array.size_swap]; exact hp)
          (by omega)
          (upInv_swap a i hi hi0 hp hinv hlt)
      · next hcmp =>
        intro j hj hjs
        by_cases hji : j = i
        · subst hji
          have hge : pAt a j ≤ pAt a (parentIdx j) := by
            rw [pAt_get a (parentIdx j) hp, pAt_get a j hi]
            exact taskCompare_ge (Bool.eq_false_iff.mpr hcmp)
          exact hge
        · exact hinv.1 j hj hjs hji

theorem upInv_push (a : Array Tk) (t : Tk) (hh : IsHeap a) : UpInv (a.push t) a.size := by
  constructor
  · intro j hj hjs hjne
    rw [Array.size_push] at hjs
    have hja : j < a.size := by omega
    have hpj : parentIdx j < j := parentIdx_lt hj
    rw [pAt_push, pAt_push, if_neg hjne, if_neg (by omega)]
    exact hh j hj hja
  · intro h0 c hc0 hc hpc
    exfalso
    rw [Array.size_push] at hc
    rcases child_of_parentIdx hc0 hpc with h | h <;> omega

theorem heapPush_isHeap (a : Array Tk) (t : Tk) (hh : IsHeap a) : IsHeap (heapPush a t) := by
  unfold heapPush siftUp
  exact siftUpGo_isHeap a.size (a.push t) a.size
    (by rw [Array.size_push]; omega) (le_refl _) (upInv_push a t hh)

theorem isHeap_of_downInv (a : Array Tk) (i : Nat) (hinv : DownInv a i)
    (hge : ∀ c, 0 < c → c < a.size → parentIdx c = i → pAt a c ≤ pAt a i) :
    IsHeap a := by
  intro j hj hjs
  by_cases hpj : parentIdx j = i
  · rw [hpj]
    exact hge j hj hjs hpj
  · exact hinv.1 j hj hjs hpj

theorem downInv_swap (a : Array Tk) (i m : Nat) (hi : i < a.size) (hm : m < a.size)
    (hinv : DownInv a i) (hchild : parentIdx m = i)
    (hmax : ∀ c, 0 < c → c < a.size → parentIdx c = i → pAt a c ≤ pAt a m)
    (hlt : pAt a i < pAt a m) :
    DownInv (a.swap ⟨i, hi⟩ ⟨m, hm⟩) m := by
  have hm0 : 0 < m := by
    by_contra h
    have hmz : m = 0 := by omega
    rw [hmz] at hchild
    have hz : parentIdx 0 = 0 := rfl
    rw [hz] at hchild
    rw [hmz, ← hchild] at hlt
    exact lt_irrefl _ hlt
  have him : i < m := hchild ▸ parentIdx_lt hm0
  have pb : ∀ k, pAt (a.swap ⟨i, hi⟩ ⟨m, hm⟩) k =
      if k = i then pAt a m else if k = m then pAt a i else pAt a k :=
    fun k => pAt_swap a ⟨i, hi⟩ ⟨m, hm⟩ k
  have hsz : (a.swap ⟨i, hi⟩ ⟨m, hm⟩).size = a.size := Array.size_swap a _ _
  constructor
  · intro j hj hjs hjm
    rw [hsz] at hjs
    by_cases hji : j = m
    · subst hji
      have hmi : ¬ j = i := by omega
      have hjj : j = j := rfl
      rw [pb j, pb (parentIdx j), if_neg hmi, if_pos hjj, if_pos hchild]
      exact le_of_lt hlt
    · by_cases hjei : j = i
      · subst hjei
        have hpii : ¬ parentIdx j = j := by
          have := parentIdx_lt hj
          omega
        have hpim : ¬ parentIdx j = m := by
          have := parentIdx_lt hj
          omega
        have hjj : j = j := rfl
        rw [pb j, pb (parentIdx j), if_pos hjj, if_neg hpii, if_neg hpim]
        exact hinv.2 hj m hm0 hm hchild
      · by_cases hpji : parentIdx j = i
        · have hjj2 : ¬ j = i := hjei
          rw [pb j, pb (parentIdx j), if_neg hjei, if_neg hji, if_pos hpji]
          exact hmax j hj hjs hpji
        · rw [pb j, pb (parentIdx j), if_neg hjei, if_neg hji, if_neg hpji, if_neg hjm]
          exact hinv.1 j hj hjs hpji
  · intro hm0b c hc0 hc hpc
    rw [hsz] at hc
    have hmc : m < c := hpc ▸ parentIdx_lt hc0
    have hci : ¬ c = i := by omega
    have hcm : ¬ c = m := by omega
    have hii : i = i := rfl
    rw [pb c, pb (parentIdx m), if_neg hci, if_neg hcm, if_pos hchild]
    calc pAt a c ≤ pAt a (parentIdx c) := hinv.1 c hc0 hc (by omega)
      _ = pAt a m := by rw [hpc]

theorem siftDownGo_isHeap (fuel : Nat) :
    ∀ a i, a.size ≤ fuel + i → DownInv a i → IsHeap (siftDownGo fuel a i) := by
  induction fuel with
  | zero =>
    intro a i hle hinv j hj hjs
    have hij : parentIdx j ≠ i := by
      have h1 : parentIdx j < j := parentIdx_lt hj
      have h2 : j < a.size := hjs
      omega
    exact hinv.1 j hj hjs hij
  | succ fuel ih =>
    intro a i hle hinv
    unfold siftDownGo
    by_cases hi : i < a.size
    case neg =>
      rw [dif_neg hi]
      intro j hj hjs
      have hij : parentIdx j ≠ i := by
        have h1 : parentIdx j < j := parentIdx_lt hj
        omega
      exact hinv.1 j hj hjs hij
    case pos =>
    rw [dif_pos hi]
    by_cases hl : 2 * i + 1 < a.size
    case neg =>
      rw [dif_neg hl]
      intro j hj hjs
      by_cases hpj : parentIdx j = i
      · exfalso
        rcases child_of_parentIdx hj hpj with h | h <;> omega
      · exact hinv.1 j hj hjs hpj
    case pos =>
    rw [dif_pos hl]
    by_cases hr : 2 * i + 2 < a.size
    case pos =>
      rw [dif_pos hr]
      split
      · next hcmp =>
        have hlr : pAt a (2 * i + 1) < pAt a (2 * i + 2) := by
          rw [pAt_get a (2 * i + 1) hl, pAt_get a (2 * i + 2) hr]
          exact taskCompare_lt hcmp
        have hmax : ∀ c, 0 < c → c < a.size → parentIdx c = i → pAt a c ≤ pAt a (2 * i + 2) := by
          intro c hc0 hc hpc
          rcases child_of_parentIdx hc0 hpc with h | h
          · rw [h]; exact le_of_lt hlr
          · rw [h]
        split
        · next hcmp2 =>
          have hlt : pAt a i < pAt a (2 * i + 2) := by
            rw [pAt_get a i hi, pAt_get a (2 * i + 2) hr]
            exact taskCompare_lt hcmp2
          exact ih _ (2 * i + 2)
            (by rw [Array.size_swap]; omega)
            (downInv_swap a i (2 * i + 2) hi hr hinv (parentIdx_child_right i) hmax hlt)
        · next hcmp2 =>
          have hge : pAt a (2 * i + 2) ≤ pAt a i := by
            rw [pAt_get a i hi, pAt_get a (2 * i + 2) hr]
            exact taskCompare_ge (Bool.eq_false_iff.mpr hcmp2)
          exact isHeap_of_downInv a i hinv
            (fun c hc0 hc hpc => le_trans (hmax c hc0 hc hpc) hge)
      · next hcmp =>
        have hrl : pAt a (2 * i + 2) ≤ pAt a (2 * i + 1) := by
          rw [pAt_get a (2 * i + 1) hl, pAt_get a (2 * i + 2) hr]
          exact taskCompare_ge (Bool.eq_false_iff.mpr hcmp)
        have hmax : ∀ c, 0 < c → c < a.size → parentIdx c = i → pAt a c ≤ pAt a (2 * i + 1) := by
          intro c hc0 hc hpc
          rcases child_of_parentIdx hc0 hpc with h | h
          · rw [h]
          · rw [h]; exact hrl
        split
        · next hcmp2 =>
          have hlt : pAt a i < pAt a (2 * i + 1) := by
            rw [pAt_get a i hi, pAt_get a (2 * i + 1) hl]
            exact taskCompare_lt hcmp2
          exact ih _ (2 * i + 1)
            (by rw [Array.size_swap]; omega)
            (downInv_swap a i (2 * i + 1) hi hl hinv (parentIdx_child_left i) hmax hlt)
        · next hcmp2 =>
          have hge : pAt a (2 * i + 1) ≤ pAt a i := by
            rw [pAt_get a i hi, pAt_get a (2 * i + 1) hl]
            exact taskCompare_ge (Bool.eq_false_iff.mpr hcmp2)
          exact isHeap_of_downInv a i hinv
            (fun c hc0 hc hpc => le_trans (hmax c hc0 hc hpc) hge)
    case neg =>
      rw [dif_neg hr]
      split
      · next hcmp2 =>
        have hlt : pAt a i < pAt a (2 * i + 1) := by
          rw [pAt_get a i hi, pAt_get a (2 * i + 1) hl]
          exact taskCompare_lt hcmp2
        have hmax : ∀ c, 0 < c → c < a.size → parentIdx c = i → pAt a c ≤ pAt a (2 * i + 1) := by
          intro c hc0 hc hpc
          rcases child_of_parentIdx hc0 hpc with h | h
          · rw [h]
          · omega
        exact ih _ (2 * i + 1)
          (by rw [Array.size_swap]; omega)
          (downInv_swap a i (2 * i + 1) hi hl hinv (parentIdx_child_left i) hmax hlt)
      · next hcmp2 =>
        have hge : pAt a (2 * i + 1) ≤ pAt a i := by
          rw [pAt_get a i hi, pAt_get a (2 * i + 1) hl]
          exact taskCompare_ge (Bool.eq_false_iff.mpr hcmp2)
        intro j hj hjs
        by_cases hpj : parentIdx j = i
        · rcases child_of_parentIdx hj hpj with h | h
          · rw [hpj, h]
            exact hge
          · omega
        · exact hinv.1 j hj hjs hpj

theorem heapPop_isHeap (a : Array Tk) (hh : IsHeap a) : IsHeap (heapPop a) := by
  unfold heapPop
  split
  · next h =>
    have h0 : 0 < a.size := by omega
    have hn : a.size - 1 < a.size := by omega
    have pb : ∀ k, pAt (a.swap ⟨0, h0⟩ ⟨a.size - 1, hn⟩) k =
        if k = 0 then pAt a (a.size - 1) else if k = a.size - 1 then pAt a 0 else pAt a k :=
      fun k => pAt_swap a ⟨0, h0⟩ ⟨a.size - 1, hn⟩ k
    have hswapsz : (a.swap ⟨0, h0⟩ ⟨a.size - 1, hn⟩).size = a.size := Array.size_swap a _ _
    unfold siftDown
    apply siftDownGo_isHeap
    · omega
    · constructor
      · intro j hj hjs hpj
        have hsz : ((a.swap ⟨0, h0⟩ ⟨a.size - 1, hn⟩).pop).size = a.size - 1 := by
          rw [Array.size_pop, hswapsz]
        rw [hsz] at hjs
        have hpjlt : parentIdx j < j := parentIdx_lt hj
        have e1 : pAt ((a.swap ⟨0, h0⟩ ⟨a.size - 1, hn⟩).pop) j = pAt a j := by
          rw [pAt_pop _ j (by rw [hswapsz]; omega)]
          rw [pb j, if_neg (by omega), if_neg (by omega)]
        have e2 : pAt ((a.swap ⟨0, h0⟩ ⟨a.size - 1, hn⟩).pop) (parentIdx j) =
            pAt a (parentIdx j) := by
          rw [pAt_pop _ (parentIdx j) (by rw [hswapsz]; omega)]
          rw [pb (parentIdx j), if_neg (by omega), if_neg (by omega)]
        rw [e1, e2]
        exact hh j hj (by omega)
      · intro hz
        exact absurd hz (lt_irrefl 0)
  · intro j hj hjs
    simp at hjs

/-- Any node's priority is at most the root's priority in a heap. -/
theorem pAt_le_root (a : Array Tk) (hh : IsHeap a) :
    ∀ i, i < a.size → pAt a i ≤ pAt a 0 := by
  intro i
  induction i using Nat.strong_induction_on with
  | _ i ih =>
    intro hi
    rcases Nat.eq_zero_or_pos i with h0 | h0
    · subst h0; exact le_refl _
    · exact le_trans (hh i h0 hi)
        (ih (parentIdx i) (parentIdx_lt h0) (Nat.lt_trans (parentIdx_lt h0) hi))

theorem qreach_isHeap {a : Array Tk} (h : QReach a) : IsHeap a := by
  induction h with
  | empty =>
    intro j hj hjs
    simp at hjs
  | push a t _ ih => exact heapPush_isHeap a t ih
  | pop a _ ih => exact heapPop_isHeap a ih

theorem pAt_top (a : Array Tk) (t : Tk) (h : a[0]? = some t) : pAt a 0 = t.1 := by
  have hs : 0 < a.size := by
    by_contra hs
    rw [Array.getElem?_ge a (by omega)] at h
    cases h
  have := Array.getElem?_eq_getElem (a := a) (i := 0) hs
  rw [this] at h
  have ht : a[0] = t := by
    cases h
    rfl
  rw [pAt_get a 0 hs]
  simp only [Array.get_eq_getElem, ht]

theorem all_set_of_all {α : Type} {f : α → Bool} {l : List α} {v : α} (w : Nat)
    (hl : l.all f = true) (hv : f v = true) : (l.set w v).all f = true := by
  rw [List.all_eq_true] at hl ⊢
  intro x hx
  rcases List.mem_or_eq_of_mem_set hx with h | h
  · exact hl x h
  · rw [h]
    exact hv

theorem all_getElem? {α : Type} {f : α → Bool} {l : List α} {w : Nat} {x : α}
    (hl : l.all f = true) (hx : l[w]? = some x) : f x = true := by
  rw [List.all_eq_true] at hl
  exact hl x (List.getElem?_mem hx)

theorem waitPred_false_of_queue {s : PoolSt} (h : 0 < s.taskQueue.size) :
    waitPred s = false := by
  unfold waitPred
  have h1 : (s.taskQueue.size == 0) = false := by
    rw [beq_eq_false_iff_ne]
    omega
  rw [h1, Bool.false_and]

theorem waitPred_false_of_running {s : PoolSt} (h : 0 < s.running) :
    waitPred s = false := by
  unfold waitPred
  have h1 : (s.running == 0) = false := by
    rw [beq_eq_false_iff_ne]
    omega
  rw [h1, Bool.and_false]

theorem pausedStuck_step {env : Nat → Payload} {s q : PoolSt}
    (h : PausedStuck s) (st : Step env s q) : PausedStuck q := by
  obtain ⟨hp, hq, hr, hw⟩ := h
  cases st with
  | lock hm => exact ⟨hp, hq, hr, hw⟩
  | unlock hm => exact ⟨hp, hq, hr, hw⟩
  | exit w hm hwk hstop hqs =>
    exact absurd hqs (by omega)
  | dequeue w t hm hwk hpause htop =>
    rw [hp] at hpause
    exact Bool.noConfusion hpause
  | count w t hwk =>
    have hf := all_getElem? hw hwk
    simp [phaseQuiescent] at hf
  | exec w t hwk hguard =>
    have hf := all_getElem? hw hwk
    simp [phaseQuiescent] at hf
  | done w t hm hwk hr2 =>
    have hf := all_getElem? hw hwk
    simp [phaseQuiescent] at hf

theorem pausedStuck_reaches {env : Nat → Payload} {s q : PoolSt}
    (h : PausedStuck s) (r : Reaches env s q) : PausedStuck q := by
  induction r with
  | refl => exact h
  | tail _ st ih => exact pausedStuck_step ih st

theorem pausedStuck_blocks {env : Nat → Payload} {s : PoolSt}
    (h : PausedStuck s) : BlocksForever env s :=
  fun _ r => waitPred_false_of_queue (pausedStuck_reaches h r).2.1

theorem selfWait_step {env : Nat → Payload} {s q : PoolSt}
    (h : SelfWaitCfg env s) (st : Step env s q) : SelfWaitCfg env q := by
  obtain ⟨hstop, hq, hr, hw⟩ := h
  cases st with
  | lock hm => exact ⟨hstop, hq, hr, hw⟩
  | unlock hm => exact ⟨hstop, hq, hr, hw⟩
  | exit w hm hwk hstop2 hqs =>
    rw [hstop] at hstop2
    exact Bool.noConfusion hstop2
  | dequeue w t hm hwk hpause htop =>
    rw [Array.getElem?_ge _ (by omega)] at htop
    exact Option.noConfusion htop
  | count w t hwk =>
    have hf := all_getElem? hw hwk
    simp [phaseSelfWait] at hf
  | exec w t hwk hguard =>
    have hf := all_getElem? hw hwk
    have henv : env t.2 = .callsWait := by
      simpa [phaseSelfWait] using hf
    have hcontra := hguard henv
    rw [waitPred_false_of_running (by omega)] at hcontra
    exact Bool.noConfusion hcontra
  | done w t hm hwk hr2 =>
    have hf := all_getElem? hw hwk
    simp [phaseSelfWait] at hf

theorem selfWait_reaches {env : Nat → Payload} {s q : PoolSt}
    (h : SelfWaitCfg env s) (r : Reaches env s q) : SelfWaitCfg env q := by
  induction r with
  | refl => exact h
  | tail _ st ih => exact selfWait_step ih st

theorem selfWait_blocks {env : Nat → Payload} {s : PoolSt}
    (h : SelfWaitCfg env s) : BlocksForever env s :=
  fun _ r => waitPred_false_of_running (by
    have := (selfWait_reaches h r).2.2.1
    omega)

theorem lookupAssoc_cons {β : Type} (k : Nat) (b : β) (l : List (Nat × β)) (id : Nat) :
    lookupAssoc ((k, b) :: l) id = if k = id then some b else lookupAssoc l id := by
  unfold lookupAssoc
  by_cases h : k = id
  · rw [List.find?_cons_of_pos _ (by simpa using h), if_pos h]
    rfl
  · rw [List.find?_cons_of_neg _ (by simpa using h), if_neg h]

theorem lookupAssoc_updAssoc {β : Type} (hs : List (Nat × β)) (j id : Nat) (v : β) :
    lookupAssoc (updAssoc hs j v) id =
      if id = j then (lookupAssoc hs id).map (fun _ => v) else lookupAssoc hs id := by
  induction hs with
  | nil =>
    unfold updAssoc lookupAssoc
    simp only [List.map_nil, List.find?_nil, Option.map_none]
    split <;> rfl
  | cons e rest ih =>
    obtain ⟨k, b⟩ := e
    have hcons : updAssoc ((k, b) :: rest) j v =
        (k, if k = j then v else b) :: updAssoc rest j v := by
      show (if (k, b).1 = j then ((k, b).1, v) else (k, b)) :: updAssoc rest j v = _
      by_cases h : k = j
      · simp [h]
      · simp [h]
    rw [hcons, lookupAssoc_cons k (if k = j then v else b) (updAssoc rest j v) id,
        lookupAssoc_cons k b rest id]
    by_cases hki : k = id
    · by_cases hij : id = j
      · have hkj : k = j := by rw [hki, hij]
        simp [hki, hij, hkj]
      · have hkj : ¬ k = j := by rw [hki]; exact hij
        simp [hki, hij, hkj]
    · by_cases hij : id = j
      · have hkj : ¬ k = j := by
          rw [← hij]
          exact hki
        rw [hij] at ih
        simp at ih
        simp [hki, hij, hkj, ih]
      · simp [hki, hij, ih]

theorem lookupAssoc_foldUpd {β : Type} (v : β) (l : List Nat) :
    ∀ (hs : List (Nat × β)) (id : Nat),
      ((id ∈ l ∧ (lookupAssoc hs id).isSome = true) ∨ lookupAssoc hs id = some v) →
      lookupAssoc (l.foldl (fun hs2 j => updAssoc hs2 j v) hs) id = some v := by
  induction l with
  | nil =>
    intro hs id h
    rcases h with ⟨hmem, _⟩ | hv
    · cases hmem
    · exact hv
  | cons j rest ih =>
    intro hs id h
    show lookupAssoc (rest.foldl (fun hs2 j2 => updAssoc hs2 j2 v) (updAssoc hs j v)) id = some v
    apply ih
    rcases h with ⟨hmem, hsome⟩ | hv
    · rcases List.mem_cons.mp hmem with he | hm
      · right
        rw [lookupAssoc_updAssoc, if_pos he]
        obtain ⟨b, hb⟩ := Option.isSome_iff_exists.mp hsome
        rw [hb]
        rfl
      · left
        refine ⟨hm, ?_⟩
        rw [lookupAssoc_updAssoc]
        by_cases hij : id = j
        · rw [if_pos hij]
          obtain ⟨b, hb⟩ := Option.isSome_iff_exists.mp hsome
          rw [hb]
          rfl
        · rw [if_neg hij]
          exact hsome
    · right
      rw [lookupAssoc_updAssoc]
      by_cases hij : id = j
      · rw [if_pos hij, hv]
        rfl
      · rw [if_neg hij]
        exact hv

/-- C3: for every queue reachable through submissions and worker dequeues, the
element a worker takes (`taskQueue_.top()`, slot 0) has priority at least the
priority of every element simultaneously pending in the queue — strictly
higher-priority items are dequeued first.  Among equal priorities the order is
whatever the heap produces, NOT insertion order: pushing payloads 1, 2, 3 all
at priority 0 dequeues them in the order 1, 3, 2. -/
theorem c3_dequeue_priority_order :
    (∀ a, QReach a → ∀ t, a[0]? = some t → ∀ i, i < a.size → pAt a i ≤ t.1) ∧
    drainIds (heapPush (heapPush (heapPush #[] (0, 1)) (0, 2)) (0, 3)) = [1, 3, 2] := by
  constructor
  · intro a hreach t htop i hi
    have hh := qreach_isHeap hreach
    have hle := pAt_le_root a hh i hi
    rw [pAt_top a t htop] at hle
    exact hle
  · decide

/-- Witness for C3 at a concrete reachable queue: in `aW` (payload 1 at
priority 5, payload 2 at priority 3) the top is payload 1 with priority 5 and
every pending element's priority is bounded by it. -/
theorem c3_witness :
    aW[0]? = some ((5 : Int), 1) ∧ pAt aW 1 ≤ ((5 : Int), 1).1 :=
  ⟨by decide,
   c3_dequeue_priority_order.1 aW
     (QReach.push _ _ (QReach.push _ _ QReach.empty)) ((5 : Int), 1)
     (by decide) 1 (by decide)⟩

/-- C1 is violated by the C++ implementation: from a one-worker pool with one
queued task (`s0`), the worker's dequeue block is one legal step (pop the task
and release the mutex, `fetch_add` not yet executed).  In the resulting state
`s1` the predicate of `wait()` — queue empty and `runningTasks_ == 0` — is
already true, so a concurrent `wait()` returns, even though the worker holds a
dequeued task whose execution has not started, let alone completed or been
counted. -/
theorem c1_wait_returns_while_task_dequeued :
    Step env0 s0 s1 ∧ waitPred s1 = true ∧
      s1.workers[0]? = some (WPhase.dequeued (0, 100)) :=
  ⟨Step.dequeue s0 0 (0, 100) (by decide) (by decide) (by decide) (by decide),
   by decide, by decide⟩

/-- C2 as stated is violated by the C++ implementation: the increment of
`runningTasks_` happens after the dequeue block released `queueMutex_`.  In
the trace below another thread acquires the mutex between the worker's
dequeue and its `fetch_add`, and the counter still changes while that other
thread holds the mutex. -/
theorem c2_counterexample :
    Reaches env0 s0 s1L ∧ s1L.mutex = true ∧ Step env0 s1L s1C ∧
      s1C.running = s1L.running + 1 := by
  refine ⟨?_, by decide, ?_, by decide⟩
  · exact Relation.ReflTransGen.tail
      (Relation.ReflTransGen.single
        (Step.dequeue s0 0 (0, 100) (by decide) (by decide) (by decide) (by decide)))
      (Step.lock s1 (by decide))
  · exact Step.count s1L 0 (0, 100) (by decide)

/-- C2 amended: in both implementations the counter changes only at the two
designated places — +1 when a worker takes a task, −1 once after that task's
execution completes (success or caught error alike, as the C++ decrement sits
after the try/catch) — and in the C implementation both updates happen inside
a `mtx_lock(queue_mutex)` critical section, while in the C++ implementation
only the decrement block requires the mutex: the increment is a lock-free
atomic executed after the dequeue block unlocked. -/
theorem c2_running_counter_discipline :
    (∀ (env : Nat → Payload) (s q : PoolSt), Step env s q → q.running ≠ s.running →
      ((∃ (w : Nat) (t : Tk), s.workers[w]? = some (WPhase.dequeued t) ∧
               q.running = s.running + 1 ∧
               q.workers = s.workers.set w (WPhase.executing t)) ∨
       (∃ (w : Nat) (t : Tk), s.mutex = false ∧
               s.workers[w]? = some (WPhase.finished t) ∧
               q.running = s.running - 1 ∧ 0 < s.running))) ∧
    (∀ (p q : CSt), CStep p q → q.running_tasks ≠ p.running_tasks →
      p.mutex = false ∧
      ((∃ (w : Nat) (id : Nat) (rest : List Nat), p.workers[w]? = some CPhase.idle ∧
                     p.task_queue = id :: rest ∧
                     q.running_tasks = p.running_tasks + 1) ∨
       (∃ (w : Nat) (id : Nat), p.workers[w]? = some (CPhase.published id) ∧
                q.running_tasks = p.running_tasks - 1 ∧ 0 < p.running_tasks))) := by
  constructor
  · intro env s q st hne
    cases st with
    | lock hm => exact absurd rfl hne
    | unlock hm => exact absurd rfl hne
    | exit w hm hwk hstop hqs => exact absurd rfl hne
    | dequeue w t hm hwk hpause htop => exact absurd rfl hne
    | count w t hwk => exact Or.inl ⟨w, t, hwk, rfl, rfl⟩
    | exec w t hwk hguard => exact absurd rfl hne
    | done w t hm hwk hr => exact Or.inr ⟨w, t, hm, hwk, rfl, hr⟩
  · intro p q st hne
    cases st with
    | lock hm => exact absurd rfl hne
    | unlock hm => exact absurd rfl hne
    | exit w hm hwk hstop hqe => exact absurd rfl hne
    | dequeue w id rest hm hwk hpause hq => exact ⟨hm, Or.inl ⟨w, id, rest, hwk, hq, rfl⟩⟩
    | publish w id v hwk => exact absurd rfl hne
    | done w id hm hwk hr => exact ⟨hm, Or.inr ⟨w, id, hwk, rfl, hr⟩⟩

/-- Witness for C2 amended at the concrete counter-changing step of the pool
in state `s1L`. -/
theorem c2_witness :
    (∃ (w : Nat) (t : Tk), s1L.workers[w]? = some (WPhase.dequeued t) ∧
            s1C.running = s1L.running + 1 ∧
            s1C.workers = s1L.workers.set w (WPhase.executing t)) ∨
    (∃ (w : Nat) (t : Tk), s1L.mutex = false ∧
            s1L.workers[w]? = some (WPhase.finished t) ∧
            s1C.running = s1L.running - 1 ∧ 0 < s1L.running) :=
  c2_running_counter_discipline.1 env0 s1L s1C
    (Step.count s1L 0 (0, 100) (by decide)) (by decide)

/-- C4 as stated is violated by the legacy C++ enqueue (second document of
ThreadPool.hpp, `enqueue(Work, int)`): it performs no stop-flag check, so on a
stopped pool it still pushes the work item onto the queue instead of failing
and leaving the queue unchanged. -/
theorem c4_counterexample :
    spd.stopFlag = true ∧
    (legacyEnqueueP spd 7 0).1.taskQueue.size = spd.taskQueue.size + 1 ∧
    (legacyEnqueueP spd 7 0).1.taskQueue[0]? = some (0, 7) := by
  refine ⟨rfl, ?_, by decide⟩
  exact size_heapPush spd.taskQueue (0, 7)

/-- C4 amended: `queueTask` (C++ with futures) and `threadpool_enqueue` (C)
behave as claimed — with the stop flag set they fail synchronously (throw /
NULL) and leave the pool unchanged, otherwise they push exactly one item (and
notify one worker unless paused); the legacy C++ `enqueue` has no stop check
and pushes the item even on a stopped pool. -/
theorem c4_submit_behavior :
    (∀ (s : PoolSt) (pr : Int) (id : Nat), s.stopFlag = true →
        queueTask s pr id = { st := s, err := some .poolStopped, notifiedOne := false }) ∧
    (∀ (s : PoolSt) (pr : Int) (id : Nat), s.stopFlag = false →
        (queueTask s pr id).err = none ∧
        (queueTask s pr id).st.taskQueue = heapPush s.taskQueue (pr, id) ∧
        (queueTask s pr id).st.taskQueue.size = s.taskQueue.size + 1 ∧
        (queueTask s pr id).notifiedOne = !s.pauseFlag) ∧
    (∀ (p : CSt) (id : Nat), p.stop_flag = true →
        threadpool_enqueue p id = { st := p, result := none, signaled := false }) ∧
    (∀ (p : CSt) (id : Nat), p.stop_flag = false →
        (threadpool_enqueue p id).st.task_queue = p.task_queue ++ [id] ∧
        (threadpool_enqueue p id).st.queue_size = p.queue_size + 1 ∧
        (threadpool_enqueue p id).result = some id ∧
        (threadpool_enqueue p id).signaled = !p.pause_flag) ∧
    (∀ (s : PoolSt) (pr : Int) (id : Nat),
        (legacyEnqueueP s id pr).1.taskQueue = heapPush s.taskQueue (pr, id)) := by
  refine ⟨?_, ?_, ?_, ?_, ?_⟩
  · intro s pr id h
    unfold queueTask
    rw [if_pos h]
  · intro s pr id h
    unfold queueTask
    rw [if_neg (by simp [h])]
    exact ⟨rfl, rfl, size_heapPush s.taskQueue (pr, id), rfl⟩
  · intro p id h
    unfold threadpool_enqueue
    rw [if_pos h]
  · intro p id h
    unfold threadpool_enqueue
    rw [if_neg (by simp [h])]
    exact ⟨rfl, rfl, rfl, rfl⟩
  · intro s pr id
    rfl

/-- Witness for C4 amended at concrete pools: a stopped pool rejects the
submission unchanged, a running pool accepts it. -/
theorem c4_witness :
    queueTask spd 0 7 = { st := spd, err := some .poolStopped, notifiedOne := false } ∧
    (queueTask p0 0 7).err = none :=
  ⟨c4_submit_behavior.1 spd 0 7 rfl, (c4_submit_behavior.2.1 p0 0 7 rfl).1⟩

/-- C5 as stated is violated: in the paused configuration `sP` (one task
queued, then `pause()`, nothing running) the wait predicate is false and no
pool-internal step can ever make it true — the embedded `wait()` has no other
exit and the code has no `PausedWithPendingWork` (or any other) error path, so
`wait()` blocks forever instead of failing. -/
theorem c5_counterexample :
    PausedStuck sP ∧ waitPred sP = false ∧ BlocksForever env0 sP := by
  have h : PausedStuck sP := ⟨rfl, by decide, rfl, by decide⟩
  exact ⟨h, waitPred_false_of_queue h.2.1, pausedStuck_blocks h⟩

/-- C5 amended: whenever the pool is paused with a non-empty queue, no task
running and all workers parked in the wait loop, the `wait()` predicate is
false and stays false along every autonomous execution — `wait()` blocks
indefinitely rather than raising an error. -/
theorem c5_paused_wait_blocks :
    ∀ (env : Nat → Payload) (s : PoolSt), PausedStuck s →
      waitPred s = false ∧ BlocksForever env s :=
  fun _ _ h => ⟨waitPred_false_of_queue h.2.1, pausedStuck_blocks h⟩

/-- Witness for C5 amended at the concrete paused pool `sP`. -/
theorem c5_witness : waitPred sP = false ∧ BlocksForever env0 sP :=
  c5_paused_wait_blocks env0 sP ⟨rfl, by decide, rfl, by decide⟩

/-- C6 as stated is violated: in configuration `sW` the single worker executes
payload 9, which called `wait()` on its own pool.  The wait predicate is false
(that very task is counted in `runningTasks_`) and no autonomous step can
change that, so the inner `wait()` blocks forever — no `SelfJoinDeadlock`
error exists anywhere in the code.  Likewise `shutdown()` compares no thread
identities: the calling worker's own thread (index 0) is among the join
targets. -/
theorem c6_counterexample :
    SelfWaitCfg env9 sW ∧ waitPred sW = false ∧ BlocksForever env9 sW ∧
      0 ∈ joinTargets [true] := by
  have h : SelfWaitCfg env9 sW := ⟨rfl, rfl, rfl, by decide⟩
  exact ⟨h, by decide, selfWait_blocks h, by decide⟩

/-- C6 amended: `wait()` from inside a task blocks forever (the calling task
is itself counted, so the idle predicate never holds), and `shutdown()` from
inside a task reaches a `join()` on the calling worker's own thread, since the
join loop filters only on joinability, never on thread identity. -/
theorem c6_self_call_behavior :
    (∀ (env : Nat → Payload) (s : PoolSt), SelfWaitCfg env s →
      waitPred s = false ∧ BlocksForever env s) ∧
    (∀ (jb : List Bool) (c : Nat), jb.getD c false = true → c ∈ joinTargets jb) := by
  constructor
  · intro env s h
    refine ⟨waitPred_false_of_running ?_, selfWait_blocks h⟩
    have := h.2.2.1
    omega
  · intro jb c hc
    unfold joinTargets
    rw [List.mem_filter]
    refine ⟨?_, hc⟩
    rw [List.mem_range]
    by_contra hcl
    rw [List.getD_eq_getElem?_getD, List.getElem?_eq_none (by omega)] at hc
    exact Bool.noConfusion hc

/-- Witness for C6 amended at the concrete self-wait configuration `sW` and a
two-thread pool whose worker 0 runs the shutdown. -/
theorem c6_witness :
    (waitPred sW = false ∧ BlocksForever env9 sW) ∧ 0 ∈ joinTargets [true, true] :=
  ⟨c6_self_call_behavior.1 env9 sW ⟨rfl, rfl, rfl, by decide⟩,
   c6_self_call_behavior.2 [true, true] 0 (by decide)⟩

/-- C7 as stated is violated by the cited C implementation: clearing the
queue DESTROYS each removed task's result cell (`taskresult_destroy`) instead
of resolving it to a Cancelled state; a caller blocked in `taskresult_get` on
that cell is waiting on a destroyed condition variable and can never return —
there is no Cancelled state at all. -/
theorem c7_counterexample :
    (threadpool_clear_queue cp7).1.task_queue = [] ∧
    lookupAssoc (threadpool_clear_queue cp7).1.handles 4 = some CHandleSt.destroyed ∧
    cGetCanReturn CHandleSt.destroyed = false := by
  decide

/-- C7 amended: all three clear implementations atomically empty the queue and
wake `wait()` callers exactly when nothing is running, but none resolves the
removed handles to a distinct Cancelled state: the C++ `clearQueue` leaves
each dropped future with a `broken_promise` error (by destroying the unrun
`packaged_task`s), the first C variant destroys the result cells outright
(blocked `taskresult_get` callers are never woken), and the second C variant
resolves them as `ready` with value 0 — indistinguishable from a task that ran
and returned 0. -/
theorem c7_clear_queue_behavior :
    (∀ s : PoolSt,
       (hppClearQueue s).1.taskQueue = #[] ∧
       ((hppClearQueue s).2 = true ↔ s.running = 0) ∧
       (∀ id, id ∈ queuedIds s.taskQueue → (lookupAssoc s.handles id).isSome = true →
          lookupAssoc (hppClearQueue s).1.handles id = some HppHandle.brokenPromise)) ∧
    (∀ p : CSt,
       (threadpool_clear_queue p).1.task_queue = [] ∧
       (threadpool_clear_queue p).1.queue_size = 0 ∧
       ((threadpool_clear_queue p).2 = true ↔ p.running_tasks = 0) ∧
       (∀ id, id ∈ p.task_queue → (lookupAssoc p.handles id).isSome = true →
          lookupAssoc (threadpool_clear_queue p).1.handles id = some CHandleSt.destroyed)) ∧
    (∀ p : CSt,
       (threadpool_clear_queue_v2 p).1.task_queue = [] ∧
       (∀ id, id ∈ p.task_queue → (lookupAssoc p.handles id).isSome = true →
          lookupAssoc (threadpool_clear_queue_v2 p).1.handles id =
            some (CHandleSt.ready 0))) := by
  refine ⟨?_, ?_, ?_⟩
  · intro s
    refine ⟨rfl, by simp [hppClearQueue], ?_⟩
    intro id hmem hsome
    exact lookupAssoc_foldUpd HppHandle.brokenPromise (queuedIds s.taskQueue) s.handles id
      (Or.inl ⟨hmem, hsome⟩)
  · intro p
    refine ⟨rfl, rfl, by simp [threadpool_clear_queue], ?_⟩
    intro id hmem hsome
    exact lookupAssoc_foldUpd CHandleSt.destroyed p.task_queue p.handles id
      (Or.inl ⟨hmem, hsome⟩)
  · intro p
    refine ⟨rfl, ?_⟩
    intro id hmem hsome
    exact lookupAssoc_foldUpd (CHandleSt.ready 0) p.task_queue p.handles id
      (Or.inl ⟨hmem, hsome⟩)

/-- Witness for C7 amended at the concrete pool `cp7` with one queued task. -/
theorem c7_witness :
    lookupAssoc (threadpool_clear_queue cp7).1.handles 4 = some CHandleSt.destroyed :=
  (c7_clear_queue_behavior.2.1 cp7).2.2.2 4 (by decide) (by decide)

/-- C8 as stated is violated by the C implementation: `threadpool_shutdown`
also frees the pool, so while the first call succeeds (joining each of the
pool's threads once), a second call operates on freed memory — it is not an
idempotent no-op. -/
theorem c8_counterexample :
    threadpool_shutdown_ref (CPoolRef.live cp8) = .ok (.freed, 1) ∧
    threadpool_shutdown_ref .freed = .error .useAfterFree :=
  ⟨rfl, rfl⟩

/-- C8 amended: the C++ `shutdown()` sets the stop flag, clears the pause
flag, notifies all workers and all waiters, joins exactly the still-joinable
threads, and is idempotent — a second call changes nothing and joins nothing,
because the `joinable()` guard skips already-joined threads.  The C
`threadpool_shutdown` performs the same flag updates and joins each of the
`thread_count` threads exactly once, but then destroys and frees the pool, so
only its first call is legal. -/
theorem c8_shutdown_behavior :
    (∀ s : PoolSt,
       (hppShutdown s).st.stopFlag = true ∧
       (hppShutdown s).st.pauseFlag = false ∧
       (hppShutdown s).notifiedAllWorkers = true ∧
       (hppShutdown s).notifiedAllWaiters = true ∧
       (hppShutdown s).joined = (s.joinable.filter (fun b => b)).length ∧
       hppShutdown (hppShutdown s).st =
         { st := (hppShutdown s).st, joined := 0,
           notifiedAllWorkers := true, notifiedAllWaiters := true }) ∧
    (∀ p : CSt,
       (threadpool_shutdown_pre p).stop_flag = true ∧
       (threadpool_shutdown_pre p).pause_flag = false ∧
       threadpool_shutdown_ref (.live p) = .ok (.freed, p.thread_count) ∧
       threadpool_shutdown_ref .freed = .error .useAfterFree) := by
  constructor
  · intro s
    refine ⟨rfl, rfl, rfl, rfl, rfl, ?_⟩
    unfold hppShutdown
    simp only [List.map_map]
    have hfil : ∀ l : List Bool, ((l.map (fun _ => false)).filter (fun b => b)).length = 0 := by
      intro l
      induction l with
      | nil => rfl
      | cons b l ih =>
        rw [List.map_cons, List.filter_cons_of_neg (by decide)]
        exact ih
    simp [hfil]
  · intro p
    exact ⟨rfl, rfl, rfl, rfl⟩

/-- C9 as stated is violated by the legacy C++ worker loop: it calls the
payload with no try/catch, so a throwing payload crashes the process, whereas
the primary worker loop completes with the exception captured (for a future
task, into its shared state). -/
theorem c9_counterexample :
    legacyExecute Payload.raises = ExecOutcome.processCrash ∧
    primaryExecute Payload.raises = ExecOutcome.completed HppHandle.failed :=
  ⟨rfl, rfl⟩

/-- C9 amended, for the primary C++ worker loop: a worker executing a
throwing future-task completes the execution step (exception captured: the
task's result entry becomes `failed`, so `get()` on the future re-raises it),
then runs its decrement block and returns to the wait loop, and the pool still
accepts new submissions afterwards. -/
theorem c9_exception_handling :
    ∀ (env : Nat → Payload) (s : PoolSt) (w : Nat) (t : Tk),
      s.workers[w]? = some (WPhase.executing t) →
      env t.2 = .raises →
      lookupAssoc s.handles t.2 = some HppHandle.pending →
      s.mutex = false →
      0 < s.running →
      s.stopFlag = false →
      ∃ s2 s3,
        Step env s s2 ∧
        s2.workers[w]? = some (WPhase.finished t) ∧
        lookupAssoc s2.handles t.2 = some HppHandle.failed ∧
        Step env s2 s3 ∧
        s3.workers[w]? = some WPhase.idle ∧
        s3.running = s.running - 1 ∧
        (∀ (pr : Int) (id : Nat), (queueTask s3 pr id).err = none) := by
  intro env s w t hwk henv hh hm hr hstop
  have hlen : w < s.workers.length := by
    rcases List.getElem?_eq_some.mp hwk with ⟨hl, _⟩
    exact hl
  refine ⟨_, _, Step.exec s w t hwk ?_, ?_, ?_, Step.done _ w t hm ?_ hr, ?_, rfl, ?_⟩
  · intro hc
    rw [henv] at hc
    exact Payload.noConfusion hc
  · exact List.getElem?_set_self (by simpa using hlen)
  · show lookupAssoc (updAssoc s.handles t.2 (outcomeOf (env t.2))) t.2 = some HppHandle.failed
    rw [henv]
    rw [lookupAssoc_updAssoc, if_pos rfl, hh]
    rfl
  · exact List.getElem?_set_self (by simpa using hlen)
  · show (((s.workers.set w (WPhase.finished t)).set w WPhase.idle))[w]? = some WPhase.idle
    exact List.getElem?_set_self (by simpa using hlen)
  · intro pr id
    unfold queueTask
    rw [if_neg (by simp [hstop])]

/-- Witness for C9 amended at the concrete pool `s9`, whose single worker is
executing the throwing future payload 7. -/
theorem c9_witness :
    ∃ s2 s3,
      Step env7 s9 s2 ∧
      s2.workers[0]? = some (WPhase.finished (3, 7)) ∧
      lookupAssoc s2.handles 7 = some HppHandle.failed ∧
      Step env7 s2 s3 ∧
      s3.workers[0]? = some WPhase.idle ∧
      s3.running = s9.running - 1 ∧
      (∀ (pr : Int) (id : Nat), (queueTask s3 pr id).err = none) :=
  c9_exception_handling env7 s9 0 (3, 7) (by decide) (by decide) (by decide)
    rfl (by decide) rfl

/-- C10: on both C++ header variants, enqueueing without an explicit priority
is exactly enqueueing with `DEFAULT_PRIORITY`, which equals 0 — the same
wrapped item at priority 0 and the same result, for the void, the
future-returning and the legacy overloads; in particular on a non-stopped pool
the defaulted call pushes the item at priority 0. -/
theorem c10_default_priority_equiv :
    DEFAULT_PRIORITY = 0 ∧
    (∀ (s : PoolSt) (id : Nat), enqueueVoid s id = enqueueVoidP s 0 id) ∧
    (∀ (s : PoolSt) (id : Nat), enqueueFut s id = enqueueFutP s 0 id) ∧
    (∀ (s : PoolSt) (id : Nat), legacyEnqueue s id = legacyEnqueueP s id 0) ∧
    (∀ (s : PoolSt) (id : Nat), s.stopFlag = false →
       (enqueueVoid s id).st.taskQueue = heapPush s.taskQueue (0, id)) := by
  refine ⟨rfl, fun s id => rfl, fun s id => rfl, fun s id => rfl, ?_⟩
  intro s id h
  unfold enqueueVoid enqueueVoidP queueTask DEFAULT_PRIORITY
  rw [if_neg (by simp [h])]

/-- Witness for C10 at the concrete fresh pool `p0`. -/
theorem c10_witness :
    (enqueueVoid p0 42).st.taskQueue = heapPush p0.taskQueue (0, 42) :=
  c10_default_priority_equiv.2.2.2.2 p0 42 rfl

end TP
